import Mathlib

/-
Verification of the RAiDER orchestration core:
 - tools/RAiDER/s1_orbits.py (credential store, multi-source orbit resolver)
 - tools/RAiDER/cli/__main__.py (calcDelays epoch pipeline driver and output router)

Strings are embedded as `List Char` (the sources only handle ASCII
filenames, identifiers and messages); Python string primitives used by the
code (`str.replace`, `str.endswith`, `re.split(r'_+', s)`,
`os.path.splitext`) are given executable models below.
-/

namespace RAiDER

/-- Python `str.replace(pat, rep)` (all non-overlapping occurrences, left to
right), fuelled so that it is structurally recursive; `fuel = s.length`
always suffices because every step consumes at least one character of `s`.
Matches CPython semantics for nonempty `pat` (the only way it is called in
the sources). -/
def strReplaceF (pat rep : List Char) : Nat → List Char → List Char
  | 0, s => s
  | Nat.succ fuel, s =>
    match s with
    | [] => []
    | c :: rest =>
      if pat ≠ [] ∧ pat <+: (c :: rest) then
        rep ++ strReplaceF pat rep fuel ((c :: rest).drop pat.length)
      else
        c :: strReplaceF pat rep fuel rest

/-- Python `s.replace(pat, rep)`. -/
def strReplace (s pat rep : List Char) : List Char :=
  strReplaceF pat rep s.length s

/-- Python `s.endswith(p)`. -/
def endsWith (l p : List Char) : Bool :=
  decide (p <:+ l)

/-- Python `p in l` (substring containment), used for checks on the
credential error message. -/
def hasSub : List Char → List Char → Bool
  | [], p => decide (p = [])
  | c :: t, p => p.isPrefixOf (c :: t) || hasSub t p

/-- Python `re.split(r'_+', s)`: pieces of `s` between maximal runs of
underscores (an empty leading/trailing piece is kept, interior empties are
impossible because runs are maximal).  Fuelled structural recursion;
`fuel = s.length` suffices since every step consumes at least one char. -/
def splitRunsF : Nat → List Char → List (List Char)
  | 0, s => [s]
  | Nat.succ fuel, s =>
    let piece := s.takeWhile (fun c => c ≠ '_')
    let rest := s.dropWhile (fun c => c ≠ '_')
    match rest with
    | [] => [piece]
    | _ :: _ => piece :: splitRunsF fuel (rest.dropWhile (fun c => c = '_'))

/-- Python `re.split(r'_+', s)`. -/
def splitRuns (s : List Char) : List (List Char) :=
  splitRunsF s.length s

/-- Index of the last occurrence of `c` in `l` (Python `str.rfind`),
`none` when absent. -/
def rfindIdx (l : List Char) (c : Char) : Option Nat :=
  ((l.enum.filter (fun p => p.2 == c)).map (fun p => p.1)).getLast?

/-- CPython `posixpath.splitext`: split off the extension at the last dot,
except that a dot with only dots between it and the last path separator
starts no extension (leading dots of a hidden file are part of the root). -/
def splitExt (p : List Char) : List Char × List Char :=
  let start := match rfindIdx p '/' with
    | none => 0
    | some i => i + 1
  match rfindIdx p '.' with
  | none => (p, [])
  | some d =>
    if start ≤ d ∧ ((p.take d).drop start).any (fun c => c ≠ '.') then
      (p.take d, p.drop d)
    else
      (p, [])

/-- Python `dict` assignment `d[k] = v` on an insertion-ordered
association list: replace in place when the key exists, else append. -/
def dictInsert {κ : Type} {V : Type} [DecidableEq κ] : List (κ × V) → κ → V → List (κ × V)
  | [], k, v => [(k, v)]
  | (k', v') :: rest, k, v =>
    if k' = k then (k, v) :: rest else (k', v') :: dictInsert rest k v

/-- First value bound to key `k` (Python `dict` lookup / `in` test). -/
def findKey {κ : Type} {V : Type} [DecidableEq κ] : List (κ × V) → κ → Option V
  | [], _ => none
  | (k', v') :: rest, k => if k' = k then some v' else findKey rest k

/-- Turn a list of optional values into an optional list, `none` as soon as
one element is missing (models the `IndexError` a short split raises under
Python list indexing). -/
def collectSome {α : Type} : List (Option α) → Option (List α)
  | [] => some []
  | none :: _ => none
  | some a :: rest =>
    match collectSome rest with
    | none => none
    | some as => some (a :: as)

/-! ## Embedding of tools/RAiDER/s1_orbits.py -/

/-- `ESA_CDSE_HOST = 'dataspace.copernicus.eu'`. -/
def ESA_CDSE_HOST : List Char := "dataspace.copernicus.eu".toList

/-- One `~/.netrc` record: the `(login, account, password)` triple held in
`netrc.netrc(...).hosts[host]`; the fields this module writes may be
Python `None`, hence `Option`. -/
abbrev CredRec : Type := Option (List Char) × Option (List Char) × Option (List Char)

/-- The `hosts` mapping of a parsed netrc file, insertion ordered. -/
abbrev CredStore : Type := List (List Char × CredRec)

/-- Equality of `Except` values is decidable componentwise. -/
instance {ε α : Type} [DecidableEq ε] [DecidableEq α] : DecidableEq (Except ε α)
  | .ok x, .ok y => decidable_of_iff (x = y) (by simp)
  | .ok _, .error _ => isFalse (by simp)
  | .error _, .ok _ => isFalse (by simp)
  | .error e, .error e' => decidable_of_iff (e = e') (by simp)

/-- The two environment inputs `ESA_USERNAME` / `ESA_PASSWORD` as read by
`os.environ.get` (absent variable = `none`). -/
structure OrbitEnv where
  esa_username : Option (List Char)
  esa_password : Option (List Char)

/-- `str(None)` or the string itself, as Python string interpolation
renders the tuple members inside `netrc.__repr__`. -/
def showOpt : Option (List Char) → List Char
  | none => "None".toList
  | some s => s

/-- One host block of `netrc.__repr__` (the text `write_text` persists):
`machine {host}\n\tlogin {login}\n[\taccount {account}\n]\tpassword {password}\n`,
where the account line is emitted only for a truthy account. -/
def renderRec (host : List Char) (r : CredRec) : List Char :=
  "machine ".toList ++ host ++ "\n\tlogin ".toList ++ showOpt r.1 ++ "\n".toList ++
    (match r.2.1 with
      | some a => if a = [] then [] else "\taccount ".toList ++ a ++ "\n".toList
      | none => []) ++
    "\tpassword ".toList ++ showOpt r.2.2 ++ "\n".toList

/-- `str(netrc_credentials)`: concatenation of the host blocks. -/
def renderStore (st : CredStore) : List Char :=
  (st.map (fun p => renderRec p.1 p.2)).flatten

/-- The `ValueError` message raised when both environment variables are
absent (source lines 41-43; adjacent Python string literals concatenate). -/
def credErrMsg : List Char :=
  ("Credentials are required for fetching orbit data from dataspace.copernicus.eu!\n" ++
   "Either add your credentials to ~/.netrc or set the ESA_USERNAME and ESA_PASSWORD " ++
   "environment variables.").toList

/-- `ensure_orbit_credentials()`.  The filesystem state is the optional
netrc file contents (`none` = file missing; the function then creates an
empty one).  Returns the new file state together with the Python return
value: `.ok none` when the file did not need updating, `.ok (some n)` with
the number of characters written after an insert, `.error msg` for the
raised `ValueError`. -/
def ensure_orbit_credentials (fs : Option CredStore) (env : OrbitEnv) :
    Option CredStore × Except (List Char) (Option Nat) :=
  let store : CredStore := fs.getD []
  match findKey store ESA_CDSE_HOST with
  | some _ => (some store, .ok none)
  | none =>
    match env.esa_username, env.esa_password with
    | none, none => (some store, .error credErrMsg)
    | u, p =>
      let store1 := dictInsert store ESA_CDSE_HOST (u, none, p)
      (some store1, .ok (some (renderStore store1).length))

/-- One attempted fetch of `eof.download.download_eofs([dt], [mission],
save_dir=..., force_asf=...)`, recorded for the call trace. -/
structure OrbitCall where
  dt : List Char
  mission : List Char
  force_asf : Bool
deriving DecidableEq

/-- The external download client (`eof.download.download_eofs` specialised
to one `(dt, mission)` pair, per the Download Client contract: one orbit
file per pair or a raised error, errors left opaque). -/
structure OrbitProviders where
  download : List Char → List Char → Bool → Except Nat (List Char)

/-- Failure modes of orbit acquisition. -/
inductive OrbitError where
  /-- the `ValueError` from `ensure_orbit_credentials`, propagated -/
  | credentials (msg : List Char)
  /-- `IndexError` from fixed-position indexing of a malformed identifier -/
  | malformedId
  /-- uncaught error from the secondary (ESA) attempt of a pair -/
  | provider (e : Nat)
  /-- the final `Exception('Missing N orbit files! ...')` with the
  shortfall and the original `dts` list -/
  | countMismatch (missing : Nat) (dts : List (List Char))
deriving DecidableEq

/-- The body of the `download_eofs` loop for one `(dt, mission)` pair:
try ASF (`force_asf=True`); on any raised error, retry ESA
(`force_asf=False`), whose failure is not caught.  Also returns the list
of client invocations made. -/
def downloadOne (P : OrbitProviders) (dt mission : List Char) :
    Except Nat (List Char) × List OrbitCall :=
  match P.download dt mission true with
  | .ok orb_file => (.ok orb_file, [⟨dt, mission, true⟩])
  | .error _ =>
    (P.download dt mission false, [⟨dt, mission, true⟩, ⟨dt, mission, false⟩])

/-- The resolved path of one pair: ASF's result, or ESA's when ASF raised. -/
def resolvePair (P : OrbitProviders) (dt mission : List Char) : Except Nat (List Char) :=
  match P.download dt mission true with
  | .ok orb_file => .ok orb_file
  | .error _ => P.download dt mission false

/-- The `for dt, mission in zip(dts, missions)` loop of `download_eofs`,
collecting one path per pair in order; an uncaught (secondary) error
aborts the loop. -/
def eofsLoop (P : OrbitProviders) :
    List (List Char × List Char) → Except Nat (List (List Char)) × List OrbitCall
  | [] => (.ok [], [])
  | (dt, mission) :: rest =>
    let r := downloadOne P dt mission
    match r.1 with
    | .error e => (.error e, r.2)
    | .ok orb_file =>
      let r2 := eofsLoop P rest
      match r2.1 with
      | .error e => (.error e, r.2 ++ r2.2)
      | .ok orb_files => (.ok (orb_file :: orb_files), r.2 ++ r2.2)

/-- `download_eofs(dts, missions, save_dir)` (the directory is forwarded
to the client unchanged and is dropped from the model). -/
def download_eofs (P : OrbitProviders) (dts missions : List (List Char)) :
    Except OrbitError (List (List Char)) × List OrbitCall :=
  let r := eofsLoop P (dts.zip missions)
  match r.1 with
  | .error e => (.error (.provider e), r.2)
  | .ok orb_files =>
    if orb_files.length = dts.length then (.ok orb_files, r.2)
    else (.error (.countMismatch (dts.length - orb_files.length) dts), r.2)

/-- The fixed-position identifier parsing of `get_orbits_from_slc_ids`:
mission code `slc_id[0:3]`, start/stop tokens `re.split(r'_+', slc_id)[4]`
and `[5]` (`none` when the split is too short to index). -/
def parseSlcId (s : List Char) :
    List Char × Option (List Char) × Option (List Char) :=
  (s.take 3, (splitRuns s).get? 4, (splitRuns s).get? 5)

/-- An identifier the `[4]`/`[5]` indexing does not throw on. -/
def wellFormedSlcId (s : List Char) : Prop :=
  6 ≤ (splitRuns s).length

instance (s : List Char) : Decidable (wellFormedSlcId s) := by
  unfold wellFormedSlcId
  infer_instance

/-- `get_orbits_from_slc_ids(slc_ids, directory)`: ensure credentials,
parse each identifier, then
`download_eofs(start_times + stop_times, missions * 2, ...)`. -/
def get_orbits_from_slc_ids (P : OrbitProviders) (fs : Option CredStore)
    (env : OrbitEnv) (slc_ids : List (List Char)) :
    Except OrbitError (List (List Char)) × List OrbitCall :=
  match (ensure_orbit_credentials fs env).2 with
  | .error msg => (.error (.credentials msg), [])
  | .ok _ =>
    let missions := slc_ids.map (fun s => s.take 3)
    match collectSome (slc_ids.map (fun s => (splitRuns s).get? 4)),
        collectSome (slc_ids.map (fun s => (splitRuns s).get? 5)) with
    | some start_times, some stop_times =>
      download_eofs P (start_times ++ stop_times) (missions ++ missions)
    | _, _ => (.error .malformedId, [])

/-! ## Embedding of the calcDelays batch loop (tools/RAiDER/cli/__main__.py,
lines 174-273).  Dates, weather-model artifacts and delay cubes are opaque
and represented by `Nat`; the two external engines are oracle functions;
a raised Python exception is `.error` carrying whether it is a
`RuntimeError` (the only kind the loop catches). -/

/-- Kind of exception an external engine raises. -/
inductive ExcKind where
  | runtimeError
  | otherExc (code : Nat)
deriving DecidableEq

/-- The line-of-sight object: the two predicates the loop consults. -/
structure LosConfig where
  is_Projected : Bool
  ray_trace : Bool
deriving DecidableEq

/-- The area-of-interest object: `type()`, `bounds()` and
`add_buffer(buffer)`. -/
structure AoiConfig where
  aoiType : List Char
  bounds : Nat
  add_buffer : Nat → Nat

/-- The fields of the validated parameter structure that the batch loop
reads. -/
structure RunParams where
  date_list : List Nat
  wetFilenames : List (List Char)
  hydroFilenames : List (List Char)
  download_only : Bool
  raster_format : List Char
  los : LosConfig
  aoi : AoiConfig

/-- The two external engines, `prepareWeatherModel(model, t, ll_bounds,
...)` (arguments other than date, bounds and the download-only flag are
forwarded config constants) and `tropo_delay(t, weather_model_file, ...)`
returning the `(wet_delay, hydro_delay)` pair, `hydro_delay` possibly
`None`. -/
structure Engines where
  prepareWeatherModel : Nat → Nat → Bool → Except ExcKind Nat
  tropo_delay : Nat → Nat → Except ExcKind (Nat × Option Nat)

/-- Observable actions of one batch run: engine invocations, the
`logger.exception('Date %s failed', t)` recovery log, and the serialization
calls (`ds.to_netcdf(...)` for the two cube containers,
`writeDelays(...)` for the tabular/raster path). -/
inductive DriverEvent where
  | callWM (t : Nat) (ll_bounds : Nat) (download_only : Bool)
  | callDelay (t : Nat)
  | logFail (t : Nat)
  | writeCubeNc (name : List Char)
  | writeCubeH5 (name : List Char)
  | writeTabular (wetName hydroName fmt : List Char)
deriving DecidableEq

/-- `ll_bounds`: buffered by 1 for ray tracing, else the plain bounds
(source lines 190-193). -/
def llBounds (P : RunParams) : Nat :=
  if P.los.ray_trace then P.aoi.add_buffer 1 else P.aoi.bounds

/-- Output-name derivation by line-of-sight mode (source lines 234-241):
projected replaces `_ztd` with `_std` in both names, else ray tracing
replaces `_std` with `_ray` in both, else both are unchanged. -/
def deriveOutNames (los : LosConfig) (w f : List Char) : List Char × List Char :=
  if los.is_Projected then
    (strReplace w "_ztd".toList "_std".toList, strReplace f "_ztd".toList "_std".toList)
  else if los.ray_trace then
    (strReplace w "_std".toList "_ray".toList, strReplace f "_std".toList "_ray".toList)
  else
    (w, f)

/-- The cube branch of the output router (source lines 243-256,
`hydro_delay is None`): force the extension to `.nc` unless it is `.nc` or
`.h5`, replace `wet` with `tropo`, then dispatch on the final name's
extension. -/
def routeCube (out0 : List Char) : List Char × List DriverEvent :=
  let ext := (splitExt out0).2
  let out1 :=
    if ext = ".nc".toList ∨ ext = ".h5".toList then out0
    else (splitExt out0).1 ++ ".nc".toList
  let out2 := strReplace out1 "wet".toList "tropo".toList
  let evs :=
    if endsWith out2 ".nc".toList then [DriverEvent.writeCubeNc out2]
    else if endsWith out2 ".h5".toList then [DriverEvent.writeCubeH5 out2]
    else []
  (out2, evs)

/-- The separate wet/hydro branch of the output router (source lines
258-267): station files force a `.csv` wet name; the three tabular/raster
area types dispatch to `writeDelays` with the configured raster format
(`'GTiff'` when that format is the sentinel `'nc'`); other area types
write nothing. -/
def routeSeparate (aoiType raster_format out0 f : List Char) :
    List Char × List DriverEvent :=
  let out1 :=
    if aoiType = "station_file".toList then (splitExt out0).1 ++ ".csv".toList
    else out0
  let evs :=
    if aoiType = "station_file".toList ∨ aoiType = "radar_rasters".toList ∨
        aoiType = "geocoded_file".toList then
      [DriverEvent.writeTabular out1 f
        (if raster_format = "nc".toList then "GTiff".toList else raster_format)]
    else []
  (out1, evs)

/-- One iteration of the batch loop for the job `(t, w, f)` (source lines
186-271): run the weather-model step (a `RuntimeError` is logged and the
job abandoned, `continue`), stop after it under download-only, run the
delay step with the same recovery, then derive names and route the
result.  `.ok none` is a `continue` with no mapping entry, `.ok (some kv)`
the `delay_dct[t] = out_filename, f` assignment, `.error` an uncaught
exception. -/
def processJob (E : Engines) (P : RunParams) (dl : Bool) (t : Nat) (w f : List Char) :
    List DriverEvent × Except ExcKind (Option (Nat × (List Char × List Char))) :=
  match E.prepareWeatherModel t (llBounds P) dl with
  | .error ExcKind.runtimeError =>
    ([.callWM t (llBounds P) dl, .logFail t], .ok none)
  | .error (ExcKind.otherExc k) =>
    ([.callWM t (llBounds P) dl], .error (ExcKind.otherExc k))
  | .ok weather_model_file =>
    if dl then ([.callWM t (llBounds P) dl], .ok none)
    else
      match E.tropo_delay t weather_model_file with
      | .error ExcKind.runtimeError =>
        ([.callWM t (llBounds P) dl, .callDelay t, .logFail t], .ok none)
      | .error (ExcKind.otherExc k) =>
        ([.callWM t (llBounds P) dl, .callDelay t], .error (ExcKind.otherExc k))
      | .ok (_wet_delay, hydro_delay) =>
        let names := deriveOutNames P.los w f
        match hydro_delay with
        | none =>
          let rc := routeCube names.1
          ([.callWM t (llBounds P) dl, .callDelay t] ++ rc.2,
            .ok (some (t, (rc.1, names.2))))
        | some _ =>
          let rs := routeSeparate P.aoi.aoiType P.raster_format names.1 names.2
          ([.callWM t (llBounds P) dl, .callDelay t] ++ rs.2,
            .ok (some (t, (rs.1, names.2))))

/-- Python `zip` of three lists (truncating to the shortest). -/
def zip3 {α β γ : Type} : List α → List β → List γ → List (α × β × γ)
  | a :: as, b :: bs, c :: cs => (a, b, c) :: zip3 as bs cs
  | _, _, _ => []

/-- The job list `zip(params['date_list'], params['wetFilenames'],
params['hydroFilenames'])`. -/
def jobsOf (P : RunParams) : List (Nat × List Char × List Char) :=
  zip3 P.date_list P.wetFilenames P.hydroFilenames

/-- The batch loop proper, accumulating `delay_dct` with Python dict
semantics; an uncaught exception aborts the remaining jobs. -/
def runJobs (E : Engines) (P : RunParams) (dl : Bool) :
    List (Nat × List Char × List Char) → List (Nat × (List Char × List Char)) →
    List DriverEvent × Except ExcKind (List (Nat × (List Char × List Char)))
  | [], acc => ([], .ok acc)
  | (t, w, f) :: rest, acc =>
    let r := processJob E P dl t w f
    match r.2 with
    | .error e => (r.1, .error e)
    | .ok none =>
      let r2 := runJobs E P dl rest acc
      (r.1 ++ r2.1, r2.2)
    | .ok (some kv) =>
      let r2 := runJobs E P dl rest (dictInsert acc kv.1 kv.2)
      (r.1 ++ r2.1, r2.2)

/-- `calcDelays`: `dl_only = params['download_only'] or
args.download_only` (line 174), then the loop over the jobs starting from
the empty `delay_dct`. -/
def calcDelays (E : Engines) (P : RunParams) (args_download_only : Bool) :
    List DriverEvent × Except ExcKind (List (Nat × (List Char × List Char))) :=
  runJobs E P (P.download_only || args_download_only) (jobsOf P) []

/-- The mapping entry one job contributes (its `delay_dct[t] = ...`
assignment), `none` for an abandoned or download-only job. -/
def jobEntry (E : Engines) (P : RunParams) (dl : Bool)
    (j : Nat × List Char × List Char) : Option (Nat × (List Char × List Char)) :=
  match (processJob E P dl j.1 j.2.1 j.2.2).2 with
  | .ok o => o
  | .error _ => none

/-- An engine result that respects the documented interface: when it
fails, it fails with a `RuntimeError`. -/
def RuntimeOnly {α : Type} (r : Except ExcKind α) : Prop :=
  ∀ e, r = .error e → e = ExcKind.runtimeError

/-- `Except.isOk` as a plain Boolean. -/
def exOk {ε α : Type} : Except ε α → Bool
  | .ok _ => true
  | .error _ => false

/-- The start tokens the resolver extracts, one per identifier
(`re.split(r'_+', slc_id)[4]`). -/
def slcStartTokens (slc_ids : List (List Char)) : List (List Char) :=
  slc_ids.map (fun s => ((splitRuns s).get? 4).getD [])

/-- The stop tokens the resolver extracts, one per identifier
(`re.split(r'_+', slc_id)[5]`). -/
def slcStopTokens (slc_ids : List (List Char)) : List (List Char) :=
  slc_ids.map (fun s => ((splitRuns s).get? 5).getD [])

/-- The mission codes the resolver extracts (`slc_id[0:3]`). -/
def slcMissions (slc_ids : List (List Char)) : List (List Char) :=
  slc_ids.map (fun s => s.take 3)

/-! ## Concrete instances used by witnesses and counterexamples -/

/-- The spec's literal identifier scenario. -/
def slcLit : List Char :=
  "S1A_IW_SLC__1SDV_20200101T000000_20200101T000030_...".toList

/-- A netrc store already holding a record for the CDSE host. -/
def storeESA : CredStore :=
  [(ESA_CDSE_HOST, (some "u".toList, none, some "p".toList))]

/-- Both environment variables absent. -/
def envNone : OrbitEnv := ⟨none, none⟩

/-- Only `ESA_USERNAME` set. -/
def envUser : OrbitEnv := ⟨some "u".toList, none⟩

/-- A client whose strict (ASF) attempt always raises and whose
non-strict (ESA) attempt always succeeds. -/
def prvFallbackOk : OrbitProviders :=
  ⟨fun dt m asf => if asf then .error 1 else .ok (dt ++ m)⟩

/-- A client for which both attempts raise (distinct errors, so the
surfaced one is observable). -/
def prvAllFail : OrbitProviders :=
  ⟨fun _ _ asf => if asf then .error 1 else .error 2⟩

/-- Engines failing with `RuntimeError` on every date. -/
def engAllFail : Engines :=
  ⟨fun _ _ _ => .error ExcKind.runtimeError, fun _ _ => .error ExcKind.runtimeError⟩

/-- Engines succeeding on every date, with a separate wet/hydro pair. -/
def engOkSep : Engines :=
  ⟨fun t b _ => .ok (t + b), fun _ wf => .ok (wf, some wf)⟩

/-- Engines whose weather-model step raises a `RuntimeError` exactly on
date 1 and otherwise succeeds. -/
def engFailOn1 : Engines :=
  ⟨fun t b _ => if t = 1 then .error ExcKind.runtimeError else .ok (t + b),
    fun _ wf => .ok (wf, some wf)⟩

/-- A station-file area of interest. -/
def aoiStation : AoiConfig := ⟨"station_file".toList, 7, fun b => 100 + b⟩

/-- Parameters with a single job, zenith line of sight. -/
def prmSingle : RunParams :=
  ⟨[20200101], ["20200101_ztd.nc".toList], ["20200101_ztd.nc".toList], false,
    "GTiff".toList, ⟨false, false⟩, aoiStation⟩

/-- Parameters with two jobs on dates 1 and 2, zenith line of sight. -/
def prmTwo : RunParams :=
  ⟨[1, 2], ["a_ztd.nc".toList, "b_ztd.nc".toList],
    ["a_ztd.nc".toList, "b_ztd.nc".toList], false,
    "GTiff".toList, ⟨false, false⟩, aoiStation⟩

/-- Parameters with two jobs and `download_only: True` in the parameter
structure. -/
def prmDlOnly : RunParams :=
  ⟨[1, 2], ["a_ztd.nc".toList, "b_ztd.nc".toList],
    ["a_ztd.nc".toList, "b_ztd.nc".toList], true,
    "GTiff".toList, ⟨false, false⟩, aoiStation⟩

/-! ## Lemmas about the string primitives -/

/-- Replacement is the identity on a string sharing no character with the
pattern. -/
theorem strReplaceF_of_disjoint (pat rep : List Char) (fuel : Nat) :
    ∀ s : List Char, (∀ c ∈ s, c ∉ pat) → strReplaceF pat rep fuel s = s := by
  induction fuel with
  | zero => intro s _; rfl
  | succ fuel ih =>
    intro s hdisj
    match s with
    | [] => rfl
    | c :: rest =>
      rw [strReplaceF]
      have hnp : ¬ (pat ≠ [] ∧ pat <+: (c :: rest)) := by
        rintro ⟨hne, hpre⟩
        match pat, hne with
        | p0 :: ptail, _ =>
          have hpc : p0 = c := (List.cons_prefix_cons.mp hpre).1
          exact hdisj c (List.mem_cons_self c rest) (hpc ▸ List.mem_cons_self p0 ptail)
      rw [if_neg hnp]
      exact congrArg (c :: ·) (ih rest (fun x hx => hdisj x (List.mem_cons_of_mem c hx)))

/-- If no character of `suf` occurs in the (nonempty) pattern, replacement
preserves the suffix `suf`: no match can overlap it, and insertions happen
strictly to its left. -/
theorem strReplaceF_suffix (pat rep suf : List Char) (hne : pat ≠ [])
    (hdisj : ∀ c ∈ suf, c ∉ pat) :
    ∀ fuel s, s.length ≤ fuel → suf <:+ s → suf <:+ strReplaceF pat rep fuel s := by
  intro fuel
  induction fuel with
  | zero =>
    intro s _ hsuf
    simpa [strReplaceF] using hsuf
  | succ fuel ih =>
    intro s hlen hsuf
    by_cases hss : suf = s
    · subst hss
      rw [strReplaceF_of_disjoint pat rep _ suf hdisj]
    · match s with
      | [] => exact absurd (List.suffix_nil.mp hsuf) hss
      | c :: rest =>
        rw [strReplaceF]
        by_cases hc : pat <+: (c :: rest)
        · rw [if_pos ⟨hne, hc⟩]
          rcases hsuf with ⟨t, ht⟩
          rcases hc with ⟨u, hu⟩
          have hple : pat.length ≤ t.length := by
            by_contra hlt
            push_neg at hlt
            have h1 : (c :: rest).take t.length = t := by
              rw [← ht, List.take_left]
            have h2 : (c :: rest).take pat.length = pat := by
              rw [← hu, List.take_left]
            have htp : t = pat.take t.length := by
              calc t = (c :: rest).take t.length := h1.symm
                _ = ((c :: rest).take pat.length).take t.length := by
                      rw [List.take_take, Nat.min_eq_left (Nat.le_of_lt hlt)]
                _ = pat.take t.length := by rw [h2]
            have hsplit : t ++ pat.drop t.length = pat := by
              nth_rewrite 1 [htp]
              exact List.take_append_drop t.length pat
            have hsufu : suf = pat.drop t.length ++ u := by
              have hcat : t ++ suf = t ++ (pat.drop t.length ++ u) := by
                rw [ht, ← List.append_assoc, hsplit, hu]
              exact List.append_cancel_left hcat
            have hdne : pat.drop t.length ≠ [] := by
              have : (pat.drop t.length).length = pat.length - t.length :=
                List.length_drop t.length pat
              intro hnil
              rw [hnil] at this
              simp at this
              omega
            match hd : pat.drop t.length, hdne with
            | d0 :: dtail, _ =>
              have hd0pat : d0 ∈ pat := List.drop_subset t.length pat
                (by rw [hd]; exact List.mem_cons_self d0 dtail)
              have hd0suf : d0 ∈ suf := by
                rw [hsufu, hd]
                exact List.mem_append_left u (List.mem_cons_self d0 dtail)
              exact hdisj d0 hd0suf hd0pat
          have hdropsuf : suf <:+ (c :: rest).drop pat.length := by
            refine ⟨t.drop pat.length, ?_⟩
            rw [← ht, List.drop_append_eq_append_drop,
              Nat.sub_eq_zero_of_le hple, List.drop_zero]
          have hplen : 1 ≤ pat.length := by
            match pat, hne with
            | p0 :: ptail, _ => simp
          have hslen : ((c :: rest).drop pat.length).length ≤ fuel := by
            rw [List.length_drop]
            simp only [List.length_cons] at hlen ⊢
            omega
          exact (ih _ hslen hdropsuf).trans
            (List.suffix_append rep (strReplaceF pat rep fuel ((c :: rest).drop pat.length)))
        · rw [if_neg (by rintro ⟨_, hp⟩; exact hc hp)]
          have hrest : suf <:+ rest := by
            rcases List.suffix_cons_iff.mp hsuf with heq | h
            · exact absurd heq hss
            · exact h
          have hrlen : rest.length ≤ fuel := by
            simp only [List.length_cons] at hlen
            omega
          exact (ih rest hrlen hrest).trans (List.suffix_cons c (strReplaceF pat rep fuel rest))

/-- `str.replace` preserves any suffix whose characters are disjoint from a
nonempty pattern. -/
theorem strReplace_suffix (s pat rep suf : List Char) (hne : pat ≠ [])
    (hdisj : ∀ c ∈ suf, c ∉ pat) (hsuf : suf <:+ s) :
    suf <:+ strReplace s pat rep :=
  strReplaceF_suffix pat rep suf hne hdisj s.length s (Nat.le_refl _) hsuf

/-- `splitext` is a decomposition: root and extension concatenate back to
the input. -/
theorem splitExt_append (p : List Char) : (splitExt p).1 ++ (splitExt p).2 = p := by
  unfold splitExt
  cases rfindIdx p '.' with
  | none => simp
  | some d =>
    simp only []
    split
    · exact List.take_append_drop d p
    · simp

/-! ## Lemmas about the orbit resolver -/

/-- The value component of one loop iteration is the per-pair fallback
resolution. -/
theorem downloadOne_fst (P : OrbitProviders) (dt m : List Char) :
    (downloadOne P dt m).1 = resolvePair P dt m := by
  unfold downloadOne resolvePair
  cases P.download dt m true <;> rfl

/-- When the primary (strict) attempt raises, the trace of the iteration is
exactly one strict call followed by one non-strict call on the same pair,
and the iteration's result is the secondary attempt's result. -/
theorem downloadOne_fallback (P : OrbitProviders) (dt m : List Char) (e : Nat)
    (h : P.download dt m true = .error e) :
    downloadOne P dt m = (P.download dt m false, [⟨dt, m, true⟩, ⟨dt, m, false⟩]) := by
  unfold downloadOne
  rw [h]

/-- The loop either returns one path per pair, in pair order, each the
fallback resolution of its pair, or stops at an uncaught error. -/
theorem eofsLoop_spec (P : OrbitProviders) :
    ∀ ps : List (List Char × List Char),
    (∃ paths, (eofsLoop P ps).1 = .ok paths ∧
      ps.map (fun q => resolvePair P q.1 q.2) = paths.map Except.ok) ∨
    (∃ e, (eofsLoop P ps).1 = .error e) := by
  intro ps
  induction ps with
  | nil => exact Or.inl ⟨[], rfl, rfl⟩
  | cons q rest ih =>
    match q with
    | (dt, m) =>
      cases hdl : (downloadOne P dt m).1 with
      | error e =>
        right
        exact ⟨e, by simp only [eofsLoop]; rw [hdl]⟩
      | ok p =>
        rcases ih with ⟨paths, hok, hmap⟩ | ⟨e, herr⟩
        · left
          refine ⟨p :: paths, ?_, ?_⟩
          · simp only [eofsLoop]
            rw [hdl, hok]
          · have hres : resolvePair P dt m = .ok p := by rw [← downloadOne_fst, hdl]
            simp [hres, hmap]
        · right
          refine ⟨e, ?_⟩
          simp only [eofsLoop]
          rw [hdl, herr]

/-- Pairs that resolve successfully pass an error through: prepending them
to a failing tail leaves the loop's error unchanged. -/
theorem eofsLoop_error_append (P : OrbitProviders) (l : List (List Char × List Char))
    (e : Nat) :
    ∀ pre : List (List Char × List Char),
    (∀ q ∈ pre, exOk (resolvePair P q.1 q.2) = true) →
    (eofsLoop P l).1 = .error e →
    (eofsLoop P (pre ++ l)).1 = .error e := by
  intro pre
  induction pre with
  | nil => intro _ h; simpa using h
  | cons q rest ih =>
    intro hok herr
    match q with
    | (dt, m) =>
      have hq := hok (dt, m) (List.mem_cons_self _ _)
      have hp : ∃ p, resolvePair P dt m = .ok p := by
        cases hr : resolvePair P dt m with
        | ok p => exact ⟨p, rfl⟩
        | error x => rw [hr] at hq; exact absurd hq (by simp [exOk])
      obtain ⟨p, hp⟩ := hp
      have hdl : (downloadOne P dt m).1 = .ok p := by rw [downloadOne_fst, hp]
      have htail := ih (fun q hq => hok q (List.mem_cons_of_mem _ hq)) herr
      simp only [List.cons_append, eofsLoop, List.append_eq]
      rw [hdl, htail]

/-! ## Lemmas about dict insertion and lookup -/

/-- Insertion binds the key. -/
theorem findKey_dictInsert_self {κ V : Type} [DecidableEq κ]
    (st : List (κ × V)) (k : κ) (v : V) :
    findKey (dictInsert st k v) k = some v := by
  induction st with
  | nil => simp [dictInsert, findKey]
  | cons p rest ih =>
    by_cases h : p.1 = k <;> simp [dictInsert, findKey, h, ih]

/-- Insertion of a fresh key appends. -/
theorem dictInsert_of_not_mem {κ V : Type} [DecidableEq κ]
    (st : List (κ × V)) (k : κ) (v : V) (h : findKey st k = none) :
    dictInsert st k v = st ++ [(k, v)] := by
  induction st with
  | nil => rfl
  | cons p rest ih =>
    simp only [findKey] at h
    by_cases hk : p.1 = k
    · rw [if_pos hk] at h
      exact absurd h (by simp)
    · rw [if_neg hk] at h
      simp [dictInsert, hk, ih h]

/-- Insertion does not disturb other keys. -/
theorem findKey_dictInsert_ne {κ V : Type} [DecidableEq κ]
    (st : List (κ × V)) (k k' : κ) (v : V) (h : k' ≠ k) :
    findKey (dictInsert st k v) k' = findKey st k' := by
  have hne : ¬ k = k' := fun hh => h hh.symm
  induction st with
  | nil => simp [dictInsert, findKey, hne]
  | cons p rest ih =>
    by_cases hk : p.1 = k
    · have hp : ¬ p.1 = k' := by rw [hk]; exact hne
      simp [dictInsert, if_pos hk, findKey, hne, hp]
    · simp only [dictInsert, if_neg hk, findKey]
      by_cases hk' : p.1 = k' <;> simp [hk', ih]

/-! ## Lemmas about the batch loop -/

/-- A `RuntimeError` from the weather-model step: log the date, abandon
the job. -/
theorem processJob_wm_runtime (E : Engines) (P : RunParams) (dl : Bool)
    (t : Nat) (w f : List Char)
    (h : E.prepareWeatherModel t (llBounds P) dl = .error ExcKind.runtimeError) :
    processJob E P dl t w f =
      ([.callWM t (llBounds P) dl, .logFail t], .ok none) := by
  unfold processJob
  rw [h]

/-- Under download-only the delay engine is never reached. -/
theorem processJob_wm_ok_dl (E : Engines) (P : RunParams) (t : Nat) (w f : List Char)
    (wf : Nat) (h : E.prepareWeatherModel t (llBounds P) true = .ok wf) :
    processJob E P true t w f = ([.callWM t (llBounds P) true], .ok none) := by
  unfold processJob
  rw [h]
  rfl

/-- A `RuntimeError` from the delay step: log the date, abandon the job. -/
theorem processJob_delay_runtime (E : Engines) (P : RunParams)
    (t : Nat) (w f : List Char) (wf : Nat)
    (h1 : E.prepareWeatherModel t (llBounds P) false = .ok wf)
    (h2 : E.tropo_delay t wf = .error ExcKind.runtimeError) :
    processJob E P false t w f =
      ([.callWM t (llBounds P) false, .callDelay t, .logFail t], .ok none) := by
  unfold processJob
  rw [h1]
  simp only [Bool.false_eq_true, if_false]
  rw [h2]

/-- Successful cube run (`hydro_delay is None`): the mapping entry is
keyed by the date and carries the routed cube name and the derived hydro
name. -/
theorem processJob_ok_cube (E : Engines) (P : RunParams)
    (t : Nat) (w f : List Char) (wf wd : Nat)
    (h1 : E.prepareWeatherModel t (llBounds P) false = .ok wf)
    (h2 : E.tropo_delay t wf = .ok (wd, none)) :
    processJob E P false t w f =
      ([.callWM t (llBounds P) false, .callDelay t] ++
          (routeCube (deriveOutNames P.los w f).1).2,
        .ok (some (t, ((routeCube (deriveOutNames P.los w f).1).1,
          (deriveOutNames P.los w f).2)))) := by
  unfold processJob
  rw [h1]
  simp only [Bool.false_eq_true, if_false]
  rw [h2]

/-- Successful separate wet/hydro run: the mapping entry is keyed by the
date and carries the (possibly `.csv`-forced) wet name and the derived
hydro name. -/
theorem processJob_ok_sep (E : Engines) (P : RunParams)
    (t : Nat) (w f : List Char) (wf wd hd : Nat)
    (h1 : E.prepareWeatherModel t (llBounds P) false = .ok wf)
    (h2 : E.tropo_delay t wf = .ok (wd, some hd)) :
    processJob E P false t w f =
      ([.callWM t (llBounds P) false, .callDelay t] ++
          (routeSeparate P.aoi.aoiType P.raster_format
            (deriveOutNames P.los w f).1 (deriveOutNames P.los w f).2).2,
        .ok (some (t, ((routeSeparate P.aoi.aoiType P.raster_format
            (deriveOutNames P.los w f).1 (deriveOutNames P.los w f).2).1,
          (deriveOutNames P.los w f).2)))) := by
  unfold processJob
  rw [h1]
  simp only [Bool.false_eq_true, if_false]
  rw [h2]

/-- Engines that fail only with `RuntimeError` never abort a job. -/
theorem processJob_no_abort (E : Engines) (P : RunParams) (dl : Bool)
    (t : Nat) (w f : List Char)
    (h1 : RuntimeOnly (E.prepareWeatherModel t (llBounds P) dl))
    (h2 : ∀ wf, RuntimeOnly (E.tropo_delay t wf)) :
    ∃ o, (processJob E P dl t w f).2 = .ok o := by
  unfold processJob
  cases hp : E.prepareWeatherModel t (llBounds P) dl with
  | error e =>
    have he := h1 e hp
    subst he
    exact ⟨none, rfl⟩
  | ok wf =>
    by_cases hdl : dl
    · subst hdl
      exact ⟨none, rfl⟩
    · simp only [hdl, if_false, Bool.false_eq_true]
      cases ht : E.tropo_delay t wf with
      | error e =>
        have he := h2 wf e ht
        subst he
        exact ⟨none, rfl⟩
      | ok pr =>
        match pr with
        | (wd, none) => exact ⟨_, rfl⟩
        | (wd, some hd) => exact ⟨_, rfl⟩

/-- Every mapping entry a job produces is keyed by that job's date. -/
theorem processJob_key (E : Engines) (P : RunParams) (dl : Bool)
    (t : Nat) (w f : List Char) (kv : Nat × (List Char × List Char))
    (h : (processJob E P dl t w f).2 = .ok (some kv)) : kv.1 = t := by
  unfold processJob at h
  cases hp : E.prepareWeatherModel t (llBounds P) dl with
  | error e =>
    rw [hp] at h
    cases e <;> simp at h
  | ok wf =>
    rw [hp] at h
    by_cases hdl : dl
    · simp [hdl] at h
    · simp only [hdl, if_false, Bool.false_eq_true] at h
      cases ht : E.tropo_delay t wf with
      | error e =>
        rw [ht] at h
        cases e <;> simp at h
      | ok pr =>
        rw [ht] at h
        match pr with
        | (wd, none) =>
          simp at h
          rw [← h]
        | (wd, some hd) =>
          simp at h
          rw [← h]

/-- With contract-respecting engines, the trace of the whole batch is the
concatenation of the per-job traces: every job is reached. -/
theorem runJobs_fst (E : Engines) (P : RunParams) (dl : Bool) :
    ∀ (js : List (Nat × List Char × List Char))
      (acc : List (Nat × (List Char × List Char))),
    (∀ j ∈ js, ∃ o, (processJob E P dl j.1 j.2.1 j.2.2).2 = .ok o) →
    (runJobs E P dl js acc).1 =
      (js.map (fun j => (processJob E P dl j.1 j.2.1 j.2.2).1)).flatten := by
  intro js
  induction js with
  | nil => intro acc _; rfl
  | cons j rest ih =>
    obtain ⟨t, w, f⟩ := j
    intro acc hok
    obtain ⟨o, ho⟩ := hok (t, w, f) (List.mem_cons_self _ _)
    simp only [] at ho
    cases o with
    | none =>
      simp only [runJobs, ho, List.map_cons, List.flatten_cons]
      rw [ih acc (fun j hj => hok j (List.mem_cons_of_mem _ hj))]
    | some kv =>
      simp only [runJobs, ho, List.map_cons, List.flatten_cons]
      rw [ih (dictInsert acc kv.1 kv.2) (fun j hj => hok j (List.mem_cons_of_mem _ hj))]

/-- With contract-respecting engines and pairwise-distinct dates, the loop
returns normally and `delay_dct` extends the accumulator with exactly the
entries of the successfully completed jobs, in input order. -/
theorem runJobs_snd (E : Engines) (P : RunParams) (dl : Bool) :
    ∀ (js : List (Nat × List Char × List Char))
      (acc : List (Nat × (List Char × List Char))),
    (∀ j ∈ js, ∃ o, (processJob E P dl j.1 j.2.1 j.2.2).2 = .ok o) →
    (js.map (fun j => j.1)).Nodup →
    (∀ j ∈ js, findKey acc j.1 = none) →
    (runJobs E P dl js acc).2 = .ok (acc ++ js.filterMap (jobEntry E P dl)) := by
  intro js
  induction js with
  | nil => intro acc _ _ _; simp [runJobs]
  | cons j rest ih =>
    obtain ⟨t, w, f⟩ := j
    intro acc hok hnd hdis
    obtain ⟨o, ho⟩ := hok (t, w, f) (List.mem_cons_self _ _)
    simp only [] at ho
    simp only [List.map_cons, List.nodup_cons] at hnd
    have hndr : (rest.map (fun j => j.1)).Nodup := hnd.2
    have hkj : t ∉ rest.map (fun j => j.1) := hnd.1
    cases o with
    | none =>
      have hje : jobEntry E P dl (t, w, f) = none := by
        simp only [jobEntry, ho]
      simp only [runJobs, ho, List.filterMap_cons, hje]
      exact ih acc (fun j hj => hok j (List.mem_cons_of_mem _ hj)) hndr
        (fun j hj => hdis j (List.mem_cons_of_mem _ hj))
    | some kv =>
      have hkey : kv.1 = t := processJob_key E P dl t w f kv ho
      have hje : jobEntry E P dl (t, w, f) = some kv := by
        simp only [jobEntry, ho]
      have hfresh : findKey acc kv.1 = none := by
        rw [hkey]
        exact hdis (t, w, f) (List.mem_cons_self _ _)
      have hins : dictInsert acc kv.1 kv.2 = acc ++ [(kv.1, kv.2)] :=
        dictInsert_of_not_mem acc kv.1 kv.2 hfresh
      have hdis' : ∀ j' ∈ rest, findKey (dictInsert acc kv.1 kv.2) j'.1 = none := by
        intro j' hj'
        have hne : j'.1 ≠ kv.1 := by
          rw [hkey]
          intro hh
          exact hkj (hh ▸ List.mem_map_of_mem (fun j => j.1) hj')
        rw [findKey_dictInsert_ne acc kv.1 j'.1 kv.2 hne]
        exact hdis j' (List.mem_cons_of_mem _ hj')
      simp only [runJobs, ho, List.filterMap_cons, hje]
      rw [ih (dictInsert acc kv.1 kv.2)
        (fun j hj => hok j (List.mem_cons_of_mem _ hj)) hndr hdis', hins]
      simp

/-- With contract-respecting engines the loop always returns normally. -/
theorem runJobs_no_abort (E : Engines) (P : RunParams) (dl : Bool) :
    ∀ (js : List (Nat × List Char × List Char))
      (acc : List (Nat × (List Char × List Char))),
    (∀ j ∈ js, ∃ o, (processJob E P dl j.1 j.2.1 j.2.2).2 = .ok o) →
    ∃ dct, (runJobs E P dl js acc).2 = .ok dct := by
  intro js
  induction js with
  | nil => intro acc _; exact ⟨acc, rfl⟩
  | cons j rest ih =>
    obtain ⟨t, w, f⟩ := j
    intro acc hok
    obtain ⟨o, ho⟩ := hok (t, w, f) (List.mem_cons_self _ _)
    simp only [] at ho
    cases o with
    | none =>
      obtain ⟨dct, hd⟩ := ih acc (fun j hj => hok j (List.mem_cons_of_mem _ hj))
      exact ⟨dct, by simp only [runJobs, ho]; exact hd⟩
    | some kv =>
      obtain ⟨dct, hd⟩ := ih (dictInsert acc kv.1 kv.2)
        (fun j hj => hok j (List.mem_cons_of_mem _ hj))
      exact ⟨dct, by simp only [runJobs, ho]; exact hd⟩

/-- When every job is abandoned or skipped, the mapping stays as it
started. -/
theorem runJobs_all_none (E : Engines) (P : RunParams) (dl : Bool) :
    ∀ (js : List (Nat × List Char × List Char))
      (acc : List (Nat × (List Char × List Char))),
    (∀ j ∈ js, (processJob E P dl j.1 j.2.1 j.2.2).2 = .ok none) →
    (runJobs E P dl js acc).2 = .ok acc := by
  intro js
  induction js with
  | nil => intro acc _; rfl
  | cons j rest ih =>
    obtain ⟨t, w, f⟩ := j
    intro acc hok
    have ho := hok (t, w, f) (List.mem_cons_self _ _)
    simp only [] at ho
    simp only [runJobs, ho]
    exact ih acc (fun j hj => hok j (List.mem_cons_of_mem _ hj))

/-- A mapping entry is keyed by its job's date. -/
theorem jobEntry_key (E : Engines) (P : RunParams) (dl : Bool)
    (j : Nat × List Char × List Char) (kv : Nat × (List Char × List Char))
    (h : jobEntry E P dl j = some kv) : kv.1 = j.1 := by
  unfold jobEntry at h
  cases hr : (processJob E P dl j.1 j.2.1 j.2.2).2 with
  | error e => rw [hr] at h; simp at h
  | ok o =>
    rw [hr] at h
    simp only [] at h
    subst h
    exact processJob_key E P dl j.1 j.2.1 j.2.2 kv hr

/-- Under download-only with a contract-respecting weather-model engine,
every job invokes the weather-model engine and is then abandoned with no
further activity. -/
theorem processJob_dl_true (E : Engines) (P : RunParams) (t : Nat) (w f : List Char)
    (h1 : RuntimeOnly (E.prepareWeatherModel t (llBounds P) true)) :
    processJob E P true t w f = ([.callWM t (llBounds P) true, .logFail t], .ok none) ∨
    processJob E P true t w f = ([.callWM t (llBounds P) true], .ok none) := by
  cases hp : E.prepareWeatherModel t (llBounds P) true with
  | error e =>
    have he := h1 e hp
    subst he
    exact Or.inl (processJob_wm_runtime E P true t w f hp)
  | ok wf' =>
    exact Or.inr (processJob_wm_ok_dl E P t w f wf' hp)

/-- Mapping an elementwise-`some` function under `collectSome`. -/
theorem collectSome_map {α β : Type} (g : β → Option α) (d : β → α) :
    ∀ l : List β, (∀ b ∈ l, g b = some (d b)) →
    collectSome (l.map g) = some (l.map d) := by
  intro l
  induction l with
  | nil => intro _; rfl
  | cons b rest ih =>
    intro h
    have hb := h b (List.mem_cons_self _ _)
    simp only [List.map_cons, collectSome, hb]
    rw [ih (fun x hx => h x (List.mem_cons_of_mem _ hx))]

/-- For aligned task lists, `download_eofs` either returns one path per
task — each pair's fallback resolution, in task order — or surfaces an
uncaught provider error; the count-mismatch branch cannot fire. -/
theorem download_eofs_spec (P : OrbitProviders) (dts ms : List (List Char))
    (hlen : dts.length = ms.length) :
    (∃ paths, (download_eofs P dts ms).1 = .ok paths ∧ paths.length = dts.length ∧
      (dts.zip ms).map (fun q => resolvePair P q.1 q.2) = paths.map Except.ok) ∨
    (∃ e, (download_eofs P dts ms).1 = .error (.provider e)) := by
  rcases eofsLoop_spec P (dts.zip ms) with ⟨paths, hok, hmap⟩ | ⟨e, herr⟩
  · left
    have hplen : paths.length = dts.length := by
      have h2 := congrArg List.length hmap
      simp only [List.length_map, List.length_zip] at h2
      omega
    refine ⟨paths, ?_, hplen, hmap⟩
    simp only [download_eofs, hok]
    rw [if_pos hplen]
  · right
    refine ⟨e, ?_⟩
    simp only [download_eofs, herr]

/-! ## Claim theorems -/

/-- C7: for every identifier string the resolver extracts the mission code
as the first 3 characters and the start/stop tokens as the 5th and 6th
fields of the split on one-or-more consecutive underscores; the literal
identifier of the spec yields mission `S1A`, start `20200101T000000`,
stop `20200101T000030` (its double underscore collapsing into a single
field boundary). -/
theorem claim7_identifier_parsing :
    (∀ s : List Char,
      parseSlcId s = (s.take 3, (splitRuns s).get? 4, (splitRuns s).get? 5)) ∧
    splitRuns "S1A_IW_SLC__1SDV_20200101T000000_20200101T000030_...".toList =
      ["S1A".toList, "IW".toList, "SLC".toList, "1SDV".toList,
        "20200101T000000".toList, "20200101T000030".toList, "...".toList] ∧
    parseSlcId "S1A_IW_SLC__1SDV_20200101T000000_20200101T000030_...".toList =
      ("S1A".toList, some "20200101T000000".toList, some "20200101T000030".toList) :=
  ⟨fun _ => rfl, by decide, by decide⟩

/-- C8: the output router derives final names by line-of-sight mode —
projected replaces `_ztd` with `_std` in both names, ray-traced replaces
`_std` with `_ray` in both names, zenith leaves both unchanged — and the
spec's literal scenarios evaluate accordingly. -/
theorem claim8_los_filename_derivation :
    (∀ (rt : Bool) (w f : List Char),
      deriveOutNames ⟨true, rt⟩ w f =
        (strReplace w "_ztd".toList "_std".toList,
          strReplace f "_ztd".toList "_std".toList)) ∧
    (∀ w f : List Char,
      deriveOutNames ⟨false, true⟩ w f =
        (strReplace w "_std".toList "_ray".toList,
          strReplace f "_std".toList "_ray".toList)) ∧
    (∀ w f : List Char, deriveOutNames ⟨false, false⟩ w f = (w, f)) ∧
    deriveOutNames ⟨true, false⟩ "20200101_ztd.h5".toList "20200101_ztd.h5".toList =
      ("20200101_std.h5".toList, "20200101_std.h5".toList) ∧
    deriveOutNames ⟨false, true⟩ "..._std.nc".toList "..._std.nc".toList =
      ("..._ray.nc".toList, "..._ray.nc".toList) :=
  ⟨fun _ _ _ => rfl, fun _ _ => rfl, fun _ _ => rfl, by decide, by decide⟩

/-- C9: when the hydrostatic result is absent and the wet name's extension
is neither `.nc` nor `.h5`, the cube router forces the extension to `.nc`,
replaces `wet` with `tropo`, and invokes the `.nc` cube writer on the
resulting name; in particular `20200101_wet.tif` becomes
`20200101_tropo.nc` with the `.nc` writer invoked. -/
theorem claim9_cube_router :
    (∀ w : List Char, (splitExt w).2 ≠ ".nc".toList → (splitExt w).2 ≠ ".h5".toList →
      routeCube w =
        (strReplace ((splitExt w).1 ++ ".nc".toList) "wet".toList "tropo".toList,
          [DriverEvent.writeCubeNc
            (strReplace ((splitExt w).1 ++ ".nc".toList) "wet".toList "tropo".toList)])) ∧
    routeCube "20200101_wet.tif".toList =
      ("20200101_tropo.nc".toList,
        [DriverEvent.writeCubeNc "20200101_tropo.nc".toList]) := by
  constructor
  · intro w h1 h2
    have hcase : ¬((splitExt w).2 = ".nc".toList ∨ (splitExt w).2 = ".h5".toList) := by
      rintro (h | h)
      · exact h1 h
      · exact h2 h
    have hsuf : ".nc".toList <:+
        strReplace ((splitExt w).1 ++ ".nc".toList) "wet".toList "tropo".toList :=
      strReplace_suffix _ _ _ _ (by decide) (by decide) (List.suffix_append _ _)
    have hend : endsWith
        (strReplace ((splitExt w).1 ++ ".nc".toList) "wet".toList "tropo".toList)
        ".nc".toList = true := by
      simp only [endsWith, decide_eq_true_eq]
      exact hsuf
    simp only [routeCube, if_neg hcase, hend]
    simp
  · decide

/-- Witness for C9: the literal input discharges the extension
hypotheses. -/
theorem claim9_witness :
    ((splitExt "20200101_wet.tif".toList).2 ≠ ".nc".toList ∧
      (splitExt "20200101_wet.tif".toList).2 ≠ ".h5".toList) ∧
    routeCube "20200101_wet.tif".toList =
      (strReplace ((splitExt "20200101_wet.tif".toList).1 ++ ".nc".toList)
          "wet".toList "tropo".toList,
        [DriverEvent.writeCubeNc
          (strReplace ((splitExt "20200101_wet.tif".toList).1 ++ ".nc".toList)
            "wet".toList "tropo".toList)]) :=
  ⟨⟨by decide, by decide⟩,
    claim9_cube_router.1 "20200101_wet.tif".toList (by decide) (by decide)⟩

/-- C5 counterexample: with no record for the host and only `ESA_USERNAME`
set (`ESA_PASSWORD` absent), `ensure_orbit_credentials` returns
successfully and persists a record whose password field is `None` — so
"after it returns successfully ... both username and password fields
populated" is false on the code, which raises only when BOTH variables are
absent. -/
theorem claim5_counterexample :
    (∃ n, (ensure_orbit_credentials (some []) envUser).2 = .ok (some n)) ∧
    (ensure_orbit_credentials (some []) envUser).1 =
      some [(ESA_CDSE_HOST, (some "u".toList, none, none))] ∧
    (findKey ((ensure_orbit_credentials (some []) envUser).1.getD [])
        ESA_CDSE_HOST).map (fun r => r.2.2) = some none :=
  ⟨⟨56, by decide⟩, by decide, by decide⟩

/-- C5 (amended): with no record for the target host,
`ensure_orbit_credentials` fails with the missing-credentials error —
which names `ESA_USERNAME`, `ESA_PASSWORD` and the `~/.netrc` fallback —
exactly when both environment inputs are absent; otherwise it inserts a
record for the host with the values read from the environment and
persists the store, and after it returns a record for the host exists,
with both fields populated whenever both environment variables were
set. -/
theorem claim5_amended (fs : Option CredStore) (env : OrbitEnv)
    (hmiss : findKey (fs.getD []) ESA_CDSE_HOST = none) :
    (env.esa_username = none → env.esa_password = none →
      ensure_orbit_credentials fs env = (some (fs.getD []), .error credErrMsg) ∧
      hasSub credErrMsg "ESA_USERNAME".toList = true ∧
      hasSub credErrMsg "ESA_PASSWORD".toList = true ∧
      hasSub credErrMsg "~/.netrc".toList = true) ∧
    (¬(env.esa_username = none ∧ env.esa_password = none) →
      (∃ n, (ensure_orbit_credentials fs env).2 = .ok (some n)) ∧
      (ensure_orbit_credentials fs env).1 =
        some (dictInsert (fs.getD []) ESA_CDSE_HOST
          (env.esa_username, none, env.esa_password)) ∧
      findKey ((ensure_orbit_credentials fs env).1.getD []) ESA_CDSE_HOST =
        some (env.esa_username, none, env.esa_password) ∧
      (∀ u p, env.esa_username = some u → env.esa_password = some p →
        findKey ((ensure_orbit_credentials fs env).1.getD []) ESA_CDSE_HOST =
          some (some u, none, some p))) := by
  constructor
  · intro hu hp
    refine ⟨?_, by decide, by decide, by decide⟩
    simp only [ensure_orbit_credentials, hmiss, hu, hp]
  · intro hnb
    have hins : ensure_orbit_credentials fs env =
        (some (dictInsert (fs.getD []) ESA_CDSE_HOST
            (env.esa_username, none, env.esa_password)),
          .ok (some (renderStore (dictInsert (fs.getD []) ESA_CDSE_HOST
            (env.esa_username, none, env.esa_password))).length)) := by
      simp only [ensure_orbit_credentials, hmiss]
      cases hu : env.esa_username with
      | none =>
        cases hp : env.esa_password with
        | none => exact absurd ⟨hu, hp⟩ hnb
        | some p => rfl
      | some u =>
        cases hp : env.esa_password with
        | none => rfl
        | some p => rfl
    refine ⟨⟨_, by rw [hins]⟩, by rw [hins], ?_, ?_⟩
    · rw [hins]
      simp only [Option.getD_some]
      exact findKey_dictInsert_self _ _ _
    · intro u p hu hp
      rw [hins]
      simp only [Option.getD_some, hu, hp]
      exact findKey_dictInsert_self _ _ _

/-- Witness for C5 (amended): the empty store has no record; with only the
username set, the insert branch fires. -/
theorem claim5_witness :
    findKey ((some ([] : CredStore)).getD []) ESA_CDSE_HOST = none ∧
    ¬(envUser.esa_username = none ∧ envUser.esa_password = none) ∧
    findKey ((ensure_orbit_credentials (some []) envUser).1.getD []) ESA_CDSE_HOST =
      some (envUser.esa_username, none, envUser.esa_password) :=
  ⟨by decide, by decide,
    ((claim5_amended (some []) envUser (by decide)).2 (by decide)).2.2.1⟩

/-- C6: if the store already holds a record for the target host,
`ensure_orbit_credentials` reports "not mutated" (`None`) and leaves the
store — in particular the existing record — untouched; and whatever the
first call did, an immediately repeated call never changes the store. -/
theorem claim6_idempotent (fs : Option CredStore) (env : OrbitEnv) :
    (∀ store r, fs = some store → findKey store ESA_CDSE_HOST = some r →
      ensure_orbit_credentials fs env = (some store, .ok none)) ∧
    (ensure_orbit_credentials ((ensure_orbit_credentials fs env).1) env).1 =
      (ensure_orbit_credentials fs env).1 := by
  constructor
  · intro store r hfs hr
    subst hfs
    simp only [ensure_orbit_credentials, Option.getD_some, hr]
  · cases hk : findKey (fs.getD []) ESA_CDSE_HOST with
    | some r =>
      have h1 : ensure_orbit_credentials fs env = (some (fs.getD []), .ok none) := by
        simp only [ensure_orbit_credentials, hk]
      rw [h1]
      simp only [ensure_orbit_credentials, Option.getD_some, hk]
    | none =>
      cases hu : env.esa_username with
      | none =>
        cases hp : env.esa_password with
        | none =>
          have h1 : ensure_orbit_credentials fs env =
              (some (fs.getD []), .error credErrMsg) := by
            simp only [ensure_orbit_credentials, hk, hu, hp]
          rw [h1]
          simp only [ensure_orbit_credentials, Option.getD_some, hk, hu, hp]
        | some p =>
          have h1 : (ensure_orbit_credentials fs env).1 =
              some (dictInsert (fs.getD []) ESA_CDSE_HOST
                (env.esa_username, none, env.esa_password)) := by
            simp only [ensure_orbit_credentials, hk, hu, hp]
          rw [h1]
          simp only [ensure_orbit_credentials, Option.getD_some, hu, hp,
            findKey_dictInsert_self]
      | some u =>
        have h1 : (ensure_orbit_credentials fs env).1 =
            some (dictInsert (fs.getD []) ESA_CDSE_HOST
              (env.esa_username, none, env.esa_password)) := by
          cases hp : env.esa_password with
          | none => simp only [ensure_orbit_credentials, hk, hu, hp]
          | some p => simp only [ensure_orbit_credentials, hk, hu, hp]
        rw [h1]
        simp only [ensure_orbit_credentials, Option.getD_some,
          findKey_dictInsert_self]

/-- Witness for C6: a store that already holds a CDSE record makes the
first call a no-op. -/
theorem claim6_witness :
    (some storeESA = some storeESA) ∧
    findKey storeESA ESA_CDSE_HOST = some (some "u".toList, none, some "p".toList) ∧
    ensure_orbit_credentials (some storeESA) envNone = (some storeESA, .ok none) :=
  ⟨rfl, by decide,
    (claim6_idempotent (some storeESA) envNone).1 storeESA
      (some "u".toList, none, some "p".toList) rfl (by decide)⟩

/-- C2: for every list of N well-formed identifiers (with credentials
available), orbit resolution either returns exactly 2N local paths — the
per-pair fallback resolutions of the start tokens followed by the stop
tokens, in pair order — or fails with a count-mismatch error or a
provider error; a returned list always has exactly 2N elements, never
fewer. -/
theorem claim2_resolver_completeness (P : OrbitProviders) (fs : Option CredStore)
    (env : OrbitEnv) (slc_ids : List (List Char))
    (hcred : ∃ r, (ensure_orbit_credentials fs env).2 = .ok r)
    (hwf : ∀ s ∈ slc_ids, wellFormedSlcId s) :
    (∀ paths, (get_orbits_from_slc_ids P fs env slc_ids).1 = .ok paths →
      paths.length = 2 * slc_ids.length) ∧
    ((∃ paths, (get_orbits_from_slc_ids P fs env slc_ids).1 = .ok paths ∧
        paths.length = 2 * slc_ids.length ∧
        ((slcStartTokens slc_ids ++ slcStopTokens slc_ids).zip
            (slcMissions slc_ids ++ slcMissions slc_ids)).map
          (fun q => resolvePair P q.1 q.2) = paths.map Except.ok) ∨
      (∃ k ts, (get_orbits_from_slc_ids P fs env slc_ids).1 =
        .error (.countMismatch k ts)) ∨
      (∃ e, (get_orbits_from_slc_ids P fs env slc_ids).1 = .error (.provider e))) := by
  obtain ⟨r, hr⟩ := hcred
  have hstart : collectSome (slc_ids.map (fun s => (splitRuns s).get? 4)) =
      some (slcStartTokens slc_ids) := by
    apply collectSome_map
    intro b hb
    have h6 := hwf b hb
    unfold wellFormedSlcId at h6
    obtain ⟨a, ha⟩ : ∃ a, (splitRuns b).get? 4 = some a :=
      ⟨_, List.get?_eq_get (by omega)⟩
    rw [ha]
    rfl
  have hstop : collectSome (slc_ids.map (fun s => (splitRuns s).get? 5)) =
      some (slcStopTokens slc_ids) := by
    apply collectSome_map
    intro b hb
    have h6 := hwf b hb
    unfold wellFormedSlcId at h6
    obtain ⟨a, ha⟩ : ∃ a, (splitRuns b).get? 5 = some a :=
      ⟨_, List.get?_eq_get (by omega)⟩
    rw [ha]
    rfl
  have hres : (get_orbits_from_slc_ids P fs env slc_ids).1 =
      (download_eofs P (slcStartTokens slc_ids ++ slcStopTokens slc_ids)
        (slcMissions slc_ids ++ slcMissions slc_ids)).1 := by
    simp only [get_orbits_from_slc_ids, hr, hstart, hstop]
    rfl
  have hlen : (slcStartTokens slc_ids ++ slcStopTokens slc_ids).length =
      (slcMissions slc_ids ++ slcMissions slc_ids).length := by
    simp [slcStartTokens, slcStopTokens, slcMissions]
  have h2N : (slcStartTokens slc_ids ++ slcStopTokens slc_ids).length =
      2 * slc_ids.length := by
    simp only [slcStartTokens, slcStopTokens, List.length_append, List.length_map]
    omega
  rcases download_eofs_spec P _ _ hlen with ⟨paths, hok, hplen, hmap⟩ | ⟨e, herr⟩
  · constructor
    · intro paths' hp'
      rw [hres, hok] at hp'
      rw [← Except.ok.inj hp', hplen, h2N]
    · exact Or.inl ⟨paths, by rw [hres]; exact hok, by rw [hplen, h2N], hmap⟩
  · constructor
    · intro paths' hp'
      rw [hres, herr] at hp'
      exact absurd hp' (by simp)
    · exact Or.inr (Or.inr ⟨e, by rw [hres]; exact herr⟩)

/-- Witness for C2: one well-formed identifier against a provider whose
strict attempt fails and whose fallback succeeds resolves to exactly two
paths. -/
theorem claim2_witness :
    (∀ s ∈ [slcLit], wellFormedSlcId s) ∧
    (∃ r, (ensure_orbit_credentials (some storeESA) envNone).2 = .ok r) ∧
    (get_orbits_from_slc_ids prvFallbackOk (some storeESA) envNone [slcLit]).1 =
      .ok ["20200101T000000S1A".toList, "20200101T000030S1A".toList] ∧
    (∀ paths,
      (get_orbits_from_slc_ids prvFallbackOk (some storeESA) envNone [slcLit]).1 =
        .ok paths → paths.length = 2 * [slcLit].length) :=
  ⟨by decide, ⟨none, rfl⟩, by decide,
    (claim2_resolver_completeness prvFallbackOk (some storeESA) envNone [slcLit]
      ⟨none, rfl⟩ (by decide)).1⟩

/-- C4: whenever a pair's primary (strict) attempt raises, the secondary
provider is invoked exactly once on the same pair without strict
matching, and the pair's result is the secondary attempt's result; if the
secondary attempt also raises, that error — of the failing pair — is the
one the whole resolution surfaces, after any earlier pairs resolved
successfully. -/
theorem claim4_fallback (P : OrbitProviders) :
    (∀ (dt m : List Char) (e : Nat), P.download dt m true = .error e →
      (downloadOne P dt m).2 = [⟨dt, m, true⟩, ⟨dt, m, false⟩] ∧
      (downloadOne P dt m).1 = P.download dt m false) ∧
    (∀ (dts ms : List (List Char)) (pre rest : List (List Char × List Char))
        (dt m : List Char) (e e2 : Nat),
      dts.zip ms = pre ++ (dt, m) :: rest →
      (∀ q ∈ pre, exOk (resolvePair P q.1 q.2) = true) →
      P.download dt m true = .error e →
      P.download dt m false = .error e2 →
      (download_eofs P dts ms).1 = .error (.provider e2)) := by
  constructor
  · intro dt m e h
    rw [downloadOne_fallback P dt m e h]
    exact ⟨rfl, rfl⟩
  · intro dts ms pre rest dt m e e2 hzip hpre hprim hsec
    have hone : (downloadOne P dt m).1 = .error e2 := by
      rw [downloadOne_fallback P dt m e hprim]
      exact hsec
    have hcons : (eofsLoop P ((dt, m) :: rest)).1 = .error e2 := by
      simp only [eofsLoop]
      rw [hone]
    have hall : (eofsLoop P (pre ++ (dt, m) :: rest)).1 = .error e2 :=
      eofsLoop_error_append P _ e2 pre hpre hcons
    simp only [download_eofs, hzip, hall]

/-- Witness for C4: a single pair on which both providers fail with
distinct errors surfaces the secondary error. -/
theorem claim4_witness :
    prvAllFail.download "t".toList "S1A".toList true = .error 1 ∧
    prvAllFail.download "t".toList "S1A".toList false = .error 2 ∧
    (downloadOne prvAllFail "t".toList "S1A".toList).2 =
      [⟨"t".toList, "S1A".toList, true⟩, ⟨"t".toList, "S1A".toList, false⟩] ∧
    (download_eofs prvAllFail ["t".toList] ["S1A".toList]).1 =
      .error (.provider 2) :=
  ⟨by decide, by decide,
    ((claim4_fallback prvAllFail).1 "t".toList "S1A".toList 1 (by decide)).1,
    (claim4_fallback prvAllFail).2 ["t".toList] ["S1A".toList] [] []
      "t".toList "S1A".toList 1 2 (by decide)
      (fun q hq => absurd hq (List.not_mem_nil q)) (by decide) (by decide)⟩

/-- C1 counterexample: a single job whose weather-model step raises a
`RuntimeError` leaves `delay_dct` empty — the returned mapping has no
entry for the failed job, so it does not hold one entry per input job. -/
theorem claim1_counterexample :
    (jobsOf prmSingle).length = 1 ∧
    (calcDelays engAllFail prmSingle false).2 = .ok [] ∧
    ([] : List (Nat × (List Char × List Char))).length = 0 :=
  ⟨rfl, rfl, rfl⟩

/-- C1 (amended): with contract-respecting engines and pairwise-distinct
dates, the batch driver returns a mapping keyed by date holding, in the
exact input order, exactly one entry per successfully completed job (its
artifact names); a failed job contributes no entry at all. -/
theorem claim1_amended (E : Engines) (P : RunParams) (argsDl : Bool)
    (h1 : ∀ t b d, RuntimeOnly (E.prepareWeatherModel t b d))
    (h2 : ∀ t wf, RuntimeOnly (E.tropo_delay t wf))
    (hnd : ((jobsOf P).map (fun j => j.1)).Nodup) :
    (calcDelays E P argsDl).2 =
      .ok ((jobsOf P).filterMap (jobEntry E P (P.download_only || argsDl))) ∧
    (∀ j ∈ jobsOf P, jobEntry E P (P.download_only || argsDl) j = none →
      ∀ v, (j.1, v) ∉
        (jobsOf P).filterMap (jobEntry E P (P.download_only || argsDl))) := by
  have hok : ∀ j ∈ jobsOf P,
      ∃ o, (processJob E P (P.download_only || argsDl) j.1 j.2.1 j.2.2).2 = .ok o :=
    fun j _ => processJob_no_abort E P _ j.1 j.2.1 j.2.2
      (h1 j.1 (llBounds P) _) (fun wf => h2 j.1 wf)
  constructor
  · have hr := runJobs_snd E P (P.download_only || argsDl) (jobsOf P) [] hok hnd
      (fun j _ => rfl)
    simpa [calcDelays] using hr
  · intro j hj hnone v hmem
    obtain ⟨j', hj', hje'⟩ := List.mem_filterMap.mp hmem
    have hkey : j'.1 = j.1 := by
      have hk := jobEntry_key E P _ j' (j.1, v) hje'
      simpa using hk.symm
    have heq : j' = j := List.inj_on_of_nodup_map hnd hj' hj hkey
    rw [heq, hnone] at hje'
    exact Option.noConfusion hje'

/-- Witness for C1 (amended): two successful jobs on distinct dates give
one entry each, in order. -/
theorem claim1_witness :
    ((jobsOf prmTwo).map (fun j => j.1)).Nodup ∧
    (calcDelays engOkSep prmTwo false).2 =
      .ok ((jobsOf prmTwo).filterMap
        (jobEntry engOkSep prmTwo (prmTwo.download_only || false))) ∧
    (calcDelays engOkSep prmTwo false).2 =
      .ok [(1, ("a_ztd.csv".toList, "a_ztd.nc".toList)),
        (2, ("b_ztd.csv".toList, "b_ztd.nc".toList))] :=
  ⟨by decide,
    (claim1_amended engOkSep prmTwo false
      (by intro t b d e h; exact Except.noConfusion h)
      (by intro t wf e h; exact Except.noConfusion h)
      (by decide)).1,
    by decide⟩

/-- C3: with engines whose failures are `RuntimeError`s, the batch never
aborts, every job is reached (the run's trace is the concatenation of the
per-job traces), and a job failing in either engine step is logged with
its date and contributes no mapping entry while the loop continues. -/
theorem claim3_failure_isolation (E : Engines) (P : RunParams) (argsDl : Bool)
    (h1 : ∀ t b d, RuntimeOnly (E.prepareWeatherModel t b d))
    (h2 : ∀ t wf, RuntimeOnly (E.tropo_delay t wf)) :
    (∃ dct, (calcDelays E P argsDl).2 = .ok dct) ∧
    (calcDelays E P argsDl).1 =
      ((jobsOf P).map (fun j =>
        (processJob E P (P.download_only || argsDl) j.1 j.2.1 j.2.2).1)).flatten ∧
    (∀ j ∈ jobsOf P,
      (E.prepareWeatherModel j.1 (llBounds P) (P.download_only || argsDl) =
          .error ExcKind.runtimeError →
        DriverEvent.logFail j.1 ∈ (calcDelays E P argsDl).1 ∧
        jobEntry E P (P.download_only || argsDl) j = none) ∧
      (∀ wf, (P.download_only || argsDl) = false →
        E.prepareWeatherModel j.1 (llBounds P) false = .ok wf →
        E.tropo_delay j.1 wf = .error ExcKind.runtimeError →
        DriverEvent.logFail j.1 ∈ (calcDelays E P argsDl).1 ∧
        jobEntry E P (P.download_only || argsDl) j = none)) := by
  have hok : ∀ j ∈ jobsOf P,
      ∃ o, (processJob E P (P.download_only || argsDl) j.1 j.2.1 j.2.2).2 = .ok o :=
    fun j _ => processJob_no_abort E P _ j.1 j.2.1 j.2.2
      (h1 j.1 (llBounds P) _) (fun wf => h2 j.1 wf)
  have hev : (calcDelays E P argsDl).1 =
      ((jobsOf P).map (fun j =>
        (processJob E P (P.download_only || argsDl) j.1 j.2.1 j.2.2).1)).flatten := by
    simpa [calcDelays] using
      runJobs_fst E P (P.download_only || argsDl) (jobsOf P) [] hok
  refine ⟨?_, hev, ?_⟩
  · obtain ⟨dct, hd⟩ := runJobs_no_abort E P (P.download_only || argsDl) (jobsOf P) [] hok
    exact ⟨dct, by simpa [calcDelays] using hd⟩
  · intro j hj
    obtain ⟨t, w, f⟩ := j
    constructor
    · intro hwm
      have hpj := processJob_wm_runtime E P (P.download_only || argsDl) t w f hwm
      constructor
      · rw [hev]
        apply List.mem_flatten.mpr
        refine ⟨(processJob E P (P.download_only || argsDl) t w f).1,
          List.mem_map_of_mem _ hj, ?_⟩
        rw [hpj]
        simp
      · simp only [jobEntry, hpj]
    · intro wf hdl hwm ht
      rw [hdl] at hev ⊢
      have hpj := processJob_delay_runtime E P t w f wf hwm ht
      constructor
      · rw [hev]
        apply List.mem_flatten.mpr
        refine ⟨(processJob E P false t w f).1, List.mem_map_of_mem _ hj, ?_⟩
        rw [hpj]
        simp
      · simp only [jobEntry, hpj]

/-- Witness for C3: with the weather-model step failing exactly on date 1,
the run logs date 1, skips its entry, completes date 2, and returns
normally. -/
theorem claim3_witness :
    engFailOn1.prepareWeatherModel 1 (llBounds prmTwo)
      (prmTwo.download_only || false) = .error ExcKind.runtimeError ∧
    ((1 : Nat), "a_ztd.nc".toList, "a_ztd.nc".toList) ∈ jobsOf prmTwo ∧
    DriverEvent.logFail 1 ∈ (calcDelays engFailOn1 prmTwo false).1 ∧
    (∃ dct, (calcDelays engFailOn1 prmTwo false).2 = .ok dct) ∧
    (calcDelays engFailOn1 prmTwo false).2 =
      .ok [(2, ("b_ztd.csv".toList, "b_ztd.nc".toList))] := by
  have h1 : ∀ t b d, RuntimeOnly (engFailOn1.prepareWeatherModel t b d) := by
    intro t b d e h
    by_cases ht : t = 1
    · simp only [engFailOn1, ht, if_pos] at h
      rw [← Except.error.inj h]
    · simp only [engFailOn1, if_neg ht] at h
      exact Except.noConfusion h
  have h2 : ∀ t wf, RuntimeOnly (engFailOn1.tropo_delay t wf) := by
    intro t wf e h
    exact Except.noConfusion h
  have hmain := claim3_failure_isolation engFailOn1 prmTwo false h1 h2
  refine ⟨by decide, by decide, ?_, hmain.1, by decide⟩
  exact ((hmain.2.2 (1, "a_ztd.nc".toList, "a_ztd.nc".toList) (by decide)).1
    (by decide)).1

/-- C10: when the download-only flag is set (in the parameter structure or
on the command line), every job still invokes the weather-model engine
(with the download-only flag passed through) but the delay engine and the
writers are never invoked, and the returned mapping is empty. -/
theorem claim10_download_only (E : Engines) (P : RunParams) (argsDl : Bool)
    (h1 : ∀ t b d, RuntimeOnly (E.prepareWeatherModel t b d))
    (hdl : (P.download_only || argsDl) = true) :
    (calcDelays E P argsDl).2 = .ok [] ∧
    (∀ j ∈ jobsOf P,
      DriverEvent.callWM j.1 (llBounds P) true ∈ (calcDelays E P argsDl).1) ∧
    (∀ t, DriverEvent.callDelay t ∉ (calcDelays E P argsDl).1) ∧
    (∀ n, DriverEvent.writeCubeNc n ∉ (calcDelays E P argsDl).1 ∧
      DriverEvent.writeCubeH5 n ∉ (calcDelays E P argsDl).1) ∧
    (∀ o g fmt, DriverEvent.writeTabular o g fmt ∉ (calcDelays E P argsDl).1) := by
  have hcd : calcDelays E P argsDl = runJobs E P true (jobsOf P) [] := by
    unfold calcDelays
    rw [hdl]
  have hcases : ∀ j ∈ jobsOf P,
      processJob E P true j.1 j.2.1 j.2.2 =
        ([.callWM j.1 (llBounds P) true, .logFail j.1], .ok none) ∨
      processJob E P true j.1 j.2.1 j.2.2 =
        ([.callWM j.1 (llBounds P) true], .ok none) :=
    fun j _ => processJob_dl_true E P j.1 j.2.1 j.2.2 (h1 j.1 (llBounds P) true)
  have hnone : ∀ j ∈ jobsOf P, (processJob E P true j.1 j.2.1 j.2.2).2 = .ok none := by
    intro j hj
    rcases hcases j hj with h | h <;> rw [h]
  have hev : (calcDelays E P argsDl).1 =
      ((jobsOf P).map (fun j => (processJob E P true j.1 j.2.1 j.2.2).1)).flatten := by
    rw [hcd]
    exact runJobs_fst E P true (jobsOf P) []
      (fun j hj => ⟨none, hnone j hj⟩)
  have habsent : ∀ ev : DriverEvent,
      (∀ tb : Nat × Nat, ev ≠ .callWM tb.1 tb.2 true) →
      (∀ t : Nat, ev ≠ .logFail t) →
      ev ∉ (calcDelays E P argsDl).1 := by
    intro ev hnw hnl hmem
    rw [hev] at hmem
    obtain ⟨l, hl, hmem⟩ := List.mem_flatten.mp hmem
    obtain ⟨j, hj, hfl⟩ := List.mem_map.mp hl
    rw [← hfl] at hmem
    rcases hcases j hj with h | h <;> rw [h] at hmem <;>
      simp only [List.mem_cons, List.mem_singleton, List.not_mem_nil, or_false] at hmem
    · rcases hmem with hmem | hmem
      · exact hnw (j.1, llBounds P) hmem
      · exact hnl j.1 hmem
    · exact hnw (j.1, llBounds P) hmem
  refine ⟨?_, ?_, ?_, ?_, ?_⟩
  · rw [hcd]
    exact runJobs_all_none E P true (jobsOf P) [] hnone
  · intro j hj
    rw [hev]
    apply List.mem_flatten.mpr
    refine ⟨(processJob E P true j.1 j.2.1 j.2.2).1, List.mem_map_of_mem _ hj, ?_⟩
    rcases hcases j hj with h | h <;> rw [h] <;> simp
  · intro t
    exact habsent (.callDelay t) (fun tb h => DriverEvent.noConfusion h)
      (fun t' h => DriverEvent.noConfusion h)
  · intro n
    exact ⟨habsent (.writeCubeNc n) (fun tb h => DriverEvent.noConfusion h)
        (fun t' h => DriverEvent.noConfusion h),
      habsent (.writeCubeH5 n) (fun tb h => DriverEvent.noConfusion h)
        (fun t' h => DriverEvent.noConfusion h)⟩
  · intro o g fmt
    exact habsent (.writeTabular o g fmt) (fun tb h => DriverEvent.noConfusion h)
      (fun t' h => DriverEvent.noConfusion h)

/-- Witness for C10: two jobs under `download_only: True` call the
weather-model engine and return an empty mapping. -/
theorem claim10_witness :
    (prmDlOnly.download_only || false) = true ∧
    (calcDelays engOkSep prmDlOnly false).2 = .ok [] ∧
    ((1 : Nat), "a_ztd.nc".toList, "a_ztd.nc".toList) ∈ jobsOf prmDlOnly ∧
    DriverEvent.callWM 1 (llBounds prmDlOnly) true ∈
      (calcDelays engOkSep prmDlOnly false).1 := by
  have h1 : ∀ t b d, RuntimeOnly (engOkSep.prepareWeatherModel t b d) := by
    intro t b d e h
    exact Except.noConfusion h
  have hmain := claim10_download_only engOkSep prmDlOnly false h1 rfl
  exact ⟨rfl, hmain.1, by decide,
    hmain.2.1 (1, "a_ztd.nc".toList, "a_ztd.nc".toList) (by decide)⟩

end RAiDER
